import Mathlib

/-!
Shallow embedding of the Scrabble game engine (`ScrabbleGame` class).

The engine state is modelled by the structure `ScrabbleGame`; the class
methods become pure functions on that structure.  JavaScript operations that
would throw a `TypeError` (accessing a property of `undefined`) return
`none`.  The two sources of randomness — `Math.random()` inside
`shuffleArray` and inside `calculateScore` — are modelled by explicit
parameters: a stream `r : Nat → Nat` for the shuffle, where the sampled swap
index for loop counter `i` is `r i % (i + 1)` (the discrete image of
`Math.floor(Math.random() * (i + 1))`), and a single `Nat` for the score
stub, where the sample is `k % 50` (the image of
`Math.floor(Math.random() * 50)`).
-/

namespace Scrabble

/-- The blank character, a single ASCII space. -/
def blankChar : Char := Char.ofNat 32

/-- A tile: `{letter, points, isBlank}` exactly as pushed by `createTileBag`. -/
structure Tile where
  letter : Char
  points : Nat
  isBlank : Bool
deriving DecidableEq, Repr

/-- A player record: `{id, name, score, rack}` as pushed by `initializeGame`. -/
structure Player where
  id : Nat
  name : String
  score : Nat
  rack : List Tile
deriving DecidableEq, Repr

/-- The four multiplier kinds of `createSquareMultipliers`. -/
inductive MultKind where
  | tripleWord
  | doubleWord
  | tripleLetter
  | doubleLetter
deriving DecidableEq, Repr

/-- A multiplier entry `{type, applied}`. -/
structure Multiplier where
  kind : MultKind
  applied : Bool
deriving DecidableEq, Repr

/-- The board: a 15×15 nested array whose cells hold `null` or a tile. -/
abbrev Board := List (List (Option Tile))

/-- The result object returned by `submitWord`. -/
structure MoveResult where
  valid : Bool
  score : Option Nat
  message : Option String
deriving DecidableEq, Repr

/-- The engine state: the fields of the `ScrabbleGame` class that the three
public commands read or write (`selectedTiles` and the constant
`letterValues` table are UI-only and carried separately). -/
structure ScrabbleGame where
  board : Board
  players : List Player
  currentPlayerIndex : Nat
  gameOver : Bool
  tileBag : List Tile
  squareMultipliers : List ((Nat × Nat) × Multiplier)
deriving DecidableEq, Repr

/-- The `letterValues` table set by the constructor. -/
def letterValues : List (Char × Nat) :=
  [('A', 1), ('E', 1), ('I', 1), ('L', 1), ('N', 1), ('O', 1), ('R', 1),
   ('S', 1), ('T', 1), ('U', 1),
   ('D', 2), ('G', 2),
   ('B', 3), ('C', 3), ('M', 3), ('P', 3),
   ('F', 4), ('H', 4), ('V', 4), ('W', 4), ('Y', 4),
   ('K', 5),
   ('J', 8), ('X', 8),
   ('Q', 10), ('Z', 10),
   (blankChar, 0)]

/-- Lookup in the `letterValues` table. -/
def letterValue (c : Char) : Option Nat :=
  (letterValues.find? (fun e => e.1 == c)).map (fun e => e.2)

/-- `createBoard`: a 15×15 grid of `null` cells. -/
def createBoard : Board := List.replicate 15 (List.replicate 15 none)

/-- Read `board[i][j]`; out-of-range reads give `none` (they never occur on
the 15×15 boards the engine builds). -/
def getCell (b : Board) (i j : Nat) : Option Tile :=
  ((b[i]?.getD [])[j]?).getD none

/-- The `tripleWordSquares` coordinate list. -/
def tripleWordSquares : List (Nat × Nat) :=
  [(0, 0), (0, 7), (0, 14),
   (7, 0), (7, 14),
   (14, 0), (14, 7), (14, 14)]

/-- The `doubleWordSquares` coordinate list. -/
def doubleWordSquares : List (Nat × Nat) :=
  [(1, 1), (2, 2), (3, 3), (4, 4),
   (1, 13), (2, 12), (3, 11), (4, 10),
   (10, 4), (11, 3), (12, 2), (13, 1),
   (10, 10), (11, 11), (12, 12), (13, 13)]

/-- The `tripleLetterSquares` coordinate list. -/
def tripleLetterSquares : List (Nat × Nat) :=
  [(1, 5), (1, 9),
   (5, 1), (5, 5), (5, 9), (5, 13),
   (9, 1), (9, 5), (9, 9), (9, 13),
   (13, 5), (13, 9)]

/-- The `doubleLetterSquares` coordinate list. -/
def doubleLetterSquares : List (Nat × Nat) :=
  [(0, 3), (0, 11),
   (2, 6), (2, 8),
   (3, 0), (3, 7), (3, 14),
   (6, 2), (6, 6), (6, 8), (6, 12),
   (7, 3), (7, 11),
   (8, 2), (8, 6), (8, 8), (8, 12),
   (11, 0), (11, 7), (11, 14),
   (12, 6), (12, 8),
   (14, 3), (14, 11)]

/-- JavaScript object assignment `multipliers[key] = v`: replace the binding
if the key is present, otherwise append it. -/
def setKey (m : List ((Nat × Nat) × Multiplier)) (k : Nat × Nat) (v : Multiplier) :
    List ((Nat × Nat) × Multiplier) :=
  if m.any (fun e => e.1 == k) then
    m.map (fun e => if e.1 == k then (k, v) else e)
  else
    m ++ [(k, v)]

/-- JavaScript object read `multipliers[key]`. -/
def lookupKey (m : List ((Nat × Nat) × Multiplier)) (k : Nat × Nat) : Option Multiplier :=
  (m.find? (fun e => e.1 == k)).map (fun e => e.2)

/-- `createSquareMultipliers`: the four `forEach` loops writing
`{type, applied:false}` entries into a fresh object. -/
def createSquareMultipliers : List ((Nat × Nat) × Multiplier) :=
  let m1 := tripleWordSquares.foldl (fun m pos => setKey m pos ⟨.tripleWord, false⟩) []
  let m2 := doubleWordSquares.foldl (fun m pos => setKey m pos ⟨.doubleWord, false⟩) m1
  let m3 := tripleLetterSquares.foldl (fun m pos => setKey m pos ⟨.tripleLetter, false⟩) m2
  doubleLetterSquares.foldl (fun m pos => setKey m pos ⟨.doubleLetter, false⟩) m3

/-- The `tileDistribution` table of `createTileBag`: (letter, count, points). -/
def tileDistribution : List (Char × Nat × Nat) :=
  [(blankChar, 2, 0),
   ('A', 9, 1), ('B', 2, 3), ('C', 2, 3), ('D', 4, 2), ('E', 12, 1),
   ('F', 2, 4), ('G', 3, 2), ('H', 2, 4), ('I', 9, 1), ('J', 1, 8),
   ('K', 1, 5), ('L', 4, 1), ('M', 2, 3), ('N', 6, 1), ('O', 8, 1),
   ('P', 2, 3), ('Q', 1, 10), ('R', 6, 1), ('S', 4, 1), ('T', 6, 1),
   ('U', 4, 1), ('V', 2, 4), ('W', 2, 4), ('X', 1, 8), ('Y', 2, 4),
   ('Z', 1, 10)]

/-- The bag contents before shuffling: for each distribution row, `count`
copies of `{letter, points, isBlank: letter === BLANK}` pushed in order. -/
def baseTileBag : List Tile :=
  tileDistribution.foldr
    (fun e acc => List.replicate e.2.1 ⟨e.1, e.2.2, e.1 == blankChar⟩ ++ acc) []

/-- The destructuring swap `[array[i], array[j]] = [array[j], array[i]]`;
a no-op when an index is out of range (never the case in the engine). -/
def swapAt {α : Type} (a : List α) (i j : Nat) : List α :=
  match a[i]?, a[j]? with
  | some x, some y => (a.set i y).set j x
  | _, _ => a

/-- The `shuffleArray` loop, counting `i` down; at counter `i + 1` it swaps
position `i + 1` with position `r (i + 1) % (i + 2)`, the sampled value of
`Math.floor(Math.random() * (i + 2))`. -/
def shuffleGo {α : Type} (r : Nat → Nat) : Nat → List α → List α
  | 0, a => a
  | i + 1, a => shuffleGo r i (swapAt a (i + 1) (r (i + 1) % (i + 2)))

/-- `shuffleArray`: Fisher–Yates, `for (i = length-1; i > 0; i--)`. -/
def shuffleArray {α : Type} (r : Nat → Nat) (a : List α) : List α :=
  shuffleGo r (a.length - 1) a

/-- `createTileBag`: build the distribution, then shuffle it. -/
def createTileBag (r : Nat → Nat) : List Tile :=
  shuffleArray r baseTileBag

/-- The body of the `drawTilesForPlayer` loop, with explicit fuel: each
iteration pops one tile off the end of the bag, so `|bag|` iterations
always suffice and the fuel never runs out before the loop guard fails. -/
def drawGo : Nat → List Tile → List Tile → List Tile × List Tile
  | 0, bag, rack => (bag, rack)
  | fuel + 1, bag, rack =>
      if h : rack.length < 7 ∧ bag ≠ [] then
        drawGo fuel bag.dropLast (rack ++ [bag.getLast h.2])
      else
        (bag, rack)

/-- `drawTilesForPlayer`, with the mutated `(this.tileBag, player.rack)` pair
passed and returned explicitly: `while (rack.length < 7 && bag.length > 0)
rack.push(bag.pop())`.  The `count` argument of the source is unused there
and dropped here. -/
def drawTilesForPlayer (bag rack : List Tile) : List Tile × List Tile :=
  drawGo bag.length bag rack

/-- `getCurrentPlayer`: `this.players[this.currentPlayerIndex]`. -/
def getCurrentPlayer (g : ScrabbleGame) : Option Player :=
  g.players[g.currentPlayerIndex]?

/-- `passTurn`: advance the index modulo the roster size. -/
def passTurn (g : ScrabbleGame) : ScrabbleGame :=
  { g with currentPlayerIndex := (g.currentPlayerIndex + 1) % g.players.length }

/-- `exchangeTiles`: clear the current player's rack, redraw, pass the turn.
`none` models the `TypeError` thrown when there is no current player. -/
def exchangeTiles (g : ScrabbleGame) : Option ScrabbleGame :=
  match getCurrentPlayer g with
  | none => none
  | some p =>
      let res := drawTilesForPlayer g.tileBag []
      some (passTurn { g with
        players := g.players.set g.currentPlayerIndex { p with rack := res.2 },
        tileBag := res.1 })

/-- `isFirstMove`: scan all cells `board[i][j]`, `0 ≤ i, j < 15`. -/
def isFirstMove (g : ScrabbleGame) : Bool :=
  (List.range 15).all fun i => (List.range 15).all fun j =>
    (getCell g.board i j).isNone

/-- `coversCenter`: `board[7][7] !== null`. -/
def coversCenter (g : ScrabbleGame) : Bool :=
  (getCell g.board 7 7).isSome

/-- `calculateScore`: the random stub `Math.floor(Math.random() * 50) + 10`,
with the sampled value modelled as `k % 50`. -/
def calculateScore (k : Nat) : Nat :=
  k % 50 + 10

/-- The rejection result of `submitWord`. -/
def firstMoveRejection : MoveResult :=
  ⟨false, none, some "First word must cover the center square"⟩

/-- `submitWord`: first-move check, then score the stub, add it to the
current player, refill the rack, pass the turn. -/
def submitWord (k : Nat) (g : ScrabbleGame) : Option (ScrabbleGame × MoveResult) :=
  if isFirstMove g && !coversCenter g then
    some (g, firstMoveRejection)
  else
    match getCurrentPlayer g with
    | none => none
    | some p =>
        let score := calculateScore k
        let res := drawTilesForPlayer g.tileBag p.rack
        some (passTurn { g with
          players := g.players.set g.currentPlayerIndex
            { p with score := p.score + score, rack := res.2 },
          tileBag := res.1 }, ⟨true, some score, none⟩)

/-- `initializeGame`: fresh board, bag and multipliers; two players with
empty racks; each player drawn to 7 tiles in order; player 0 starts;
`gameOver` stays `false` from the constructor. -/
def initializeGame (r : Nat → Nat) : ScrabbleGame :=
  let bag0 := createTileBag r
  let d0 := drawTilesForPlayer bag0 []
  let d1 := drawTilesForPlayer d0.1 []
  { board := createBoard,
    players := [⟨0, "Player 1", 0, d0.2⟩, ⟨1, "Player 2", 0, d1.2⟩],
    currentPlayerIndex := 0,
    gameOver := false,
    tileBag := d1.1,
    squareMultipliers := createSquareMultipliers }

/-- States reachable from `initializeGame()` by the three public commands,
over all random streams. -/
inductive Reachable : ScrabbleGame → Prop where
  | init (r : Nat → Nat) : Reachable (initializeGame r)
  | pass {g : ScrabbleGame} : Reachable g → Reachable (passTurn g)
  | exchange {g g' : ScrabbleGame} : Reachable g → exchangeTiles g = some g' →
      Reachable g'
  | submit {g g' : ScrabbleGame} {res : MoveResult} (k : Nat) : Reachable g →
      submitWord k g = some (g', res) → Reachable g'

/-- Number of occupied cells of a board. -/
def boardTileCount (b : Board) : Nat :=
  (b.map (fun row => (row.filter Option.isSome).length)).sum

/-- `|bag| + Σ|player racks| + |tiles on board|`. -/
def totalTiles (g : ScrabbleGame) : Nat :=
  g.tileBag.length + (g.players.map (fun p => p.rack.length)).sum +
    boardTileCount g.board

/-- The shuffle loop driven by an explicit list of sampled swap targets. -/
def fyAux {α : Type} : List α → List Nat → List α
  | a, [] => a
  | a, j :: js => fyAux (swapAt a (js.length + 1) j) js

/-- A choice list is valid when every sampled target is within the range the
algorithm draws from: `j ≤ i` for the swap at position `i = js.length + 1`. -/
inductive ValidChoices : List Nat → Prop where
  | nil : ValidChoices []
  | cons {j : Nat} {js : List Nat} : j ≤ js.length + 1 → ValidChoices js →
      ValidChoices (j :: js)

/-- The choice list actually sampled by `shuffleGo` from the stream `r`. -/
def fyTrace (r : Nat → Nat) : Nat → List Nat
  | 0 => []
  | i + 1 => (r (i + 1) % (i + 2)) :: fyTrace r i

/-- A tile used to build small concrete test states. -/
def sampleTile : Tile := ⟨'A', 1, false⟩

/-- A small well-formed state: fresh board, two players with full racks of
seven tiles each, an empty bag, player 0 to move. -/
def sampleState : ScrabbleGame :=
  { board := createBoard,
    players := [⟨0, "Player 1", 0, List.replicate 7 sampleTile⟩,
                ⟨1, "Player 2", 0, List.replicate 7 sampleTile⟩],
    currentPlayerIndex := 0,
    gameOver := false,
    tileBag := [],
    squareMultipliers := createSquareMultipliers }

/-- A board holding a single tile on the center cell `(7,7)`. -/
def c3Board : Board :=
  createBoard.set 7 ((List.replicate 15 (none : Option Tile)).set 7 (some sampleTile))

/-- A state whose board already carries a center tile, so that the
first-move check of `submitWord` is passed. -/
def c3State : ScrabbleGame :=
  { board := c3Board,
    players := [⟨0, "Player 1", 0, List.replicate 7 sampleTile⟩,
                ⟨1, "Player 2", 0, List.replicate 7 sampleTile⟩],
    currentPlayerIndex := 0,
    gameOver := false,
    tileBag := [],
    squareMultipliers := createSquareMultipliers }

/-! ### Basic list lemmas for the swap operation -/

/-- Writing back the element already at position `i` leaves the list unchanged. -/
theorem set_getElem_eq_self {α : Type} (l : List α) (i : Nat) (h : i < l.length) :
    l.set i l[i] = l := by
  induction l generalizing i with
  | nil => simp at h
  | cons x t ih =>
      cases i with
      | zero => rfl
      | succ n =>
          simp only [List.set_cons_succ, List.getElem_cons_succ]
          rw [ih n (by simpa using h)]

/-- Moving element `m` of `t` to the front while writing `x` at position `m`
is a permutation of `x :: t`. -/
theorem cons_set_perm {α : Type} (t : List α) (m : Nat) (x : α) (h : m < t.length) :
    List.Perm (t[m] :: t.set m x) (x :: t) := by
  induction t generalizing m with
  | nil => simp at h
  | cons z t ih =>
      cases m with
      | zero => exact List.Perm.swap x z t
      | succ m =>
          have hm : m < t.length := by simpa using h
          simp only [List.getElem_cons_succ, List.set_cons_succ]
          have h1 : List.Perm (t[m] :: z :: t.set m x) (z :: t[m] :: t.set m x) :=
            List.Perm.swap z (t[m]) (t.set m x)
          have h2 : List.Perm (z :: t[m] :: t.set m x) (z :: x :: t) :=
            List.Perm.cons z (ih m hm)
          exact h1.trans (h2.trans (List.Perm.swap x z t))

/-- The two-write form of a swap is a permutation of the original list. -/
theorem set_set_swap_perm {α : Type} (a : List α) (i j : Nat)
    (hi : i < a.length) (hj : j < a.length) :
    List.Perm ((a.set i a[j]).set j a[i]) a := by
  induction a generalizing i j with
  | nil => simp at hi
  | cons z t ih =>
      cases i with
      | zero =>
          cases j with
          | zero => simp
          | succ m =>
              simp only [List.getElem_cons_succ, List.getElem_cons_zero,
                List.set_cons_zero, List.set_cons_succ]
              exact cons_set_perm t m z (by simpa using hj)
      | succ n =>
          cases j with
          | zero =>
              simp only [List.getElem_cons_succ, List.getElem_cons_zero,
                List.set_cons_zero, List.set_cons_succ]
              exact cons_set_perm t n z (by simpa using hi)
          | succ m =>
              simp only [List.getElem_cons_succ, List.set_cons_succ]
              exact List.Perm.cons z (ih n m (by simpa using hi) (by simpa using hj))

/-- `swapAt` returns a permutation of its input for any indices. -/
theorem swapAt_perm {α : Type} (a : List α) (i j : Nat) :
    List.Perm (swapAt a i j) a := by
  unfold swapAt
  rcases hi : a[i]? with _ | x
  · exact List.Perm.refl a
  · rcases hj : a[j]? with _ | y
    · exact List.Perm.refl a
    · obtain ⟨hi', hix⟩ := List.getElem?_eq_some.mp hi
      obtain ⟨hj', hjy⟩ := List.getElem?_eq_some.mp hj
      subst hix hjy
      exact set_set_swap_perm a i j hi' hj'

/-- `swapAt` preserves length. -/
theorem swapAt_length {α : Type} (a : List α) (i j : Nat) :
    (swapAt a i j).length = a.length :=
  (swapAt_perm a i j).length_eq

/-- Each pass of the shuffle loop permutes the list. -/
theorem shuffleGo_perm {α : Type} (r : Nat → Nat) (n : Nat) (a : List α) :
    List.Perm (shuffleGo r n a) a := by
  induction n generalizing a with
  | zero => exact List.Perm.refl a
  | succ i ih =>
      exact List.Perm.trans (ih _) (swapAt_perm a (i + 1) (r (i + 1) % (i + 2)))

/-- `shuffleArray` permutes its input, whatever the random stream. -/
theorem shuffleArray_perm {α : Type} (r : Nat → Nat) (a : List α) :
    List.Perm (shuffleArray r a) a :=
  shuffleGo_perm r (a.length - 1) a

/-! ### Fisher–Yates as a function of its explicit choice list

`fyAux a cs` runs the shuffle loop on `a` where `cs` lists, in loop order,
the already-sampled swap targets: when `cs = j :: js`, the next swap is of
position `js.length + 1` with position `j`.  A full run on a list of length
`n` uses a choice list of length `n - 1`, so the first swap is at the last
position `n - 1`, descending to position `1`, exactly as in `shuffleArray`. -/

/-- A trace for counter `n` has length `n`. -/
theorem fyTrace_length (r : Nat → Nat) (n : Nat) : (fyTrace r n).length = n := by
  induction n with
  | zero => rfl
  | succ i ih => simp [fyTrace, ih]

/-- Sampled traces are valid choice lists. -/
theorem fyTrace_valid (r : Nat → Nat) (n : Nat) : ValidChoices (fyTrace r n) := by
  induction n with
  | zero => exact ValidChoices.nil
  | succ i ih =>
      refine ValidChoices.cons ?_ ih
      rw [fyTrace_length]
      have := Nat.mod_lt (r (i + 1)) (y := i + 2) (by omega)
      omega

/-- The shuffle loop is `fyAux` applied to the sampled trace. -/
theorem shuffleGo_eq_fyAux {α : Type} (r : Nat → Nat) (n : Nat) (a : List α) :
    shuffleGo r n a = fyAux a (fyTrace r n) := by
  induction n generalizing a with
  | zero => rfl
  | succ i ih =>
      show shuffleGo r i _ = fyAux a ((r (i + 1) % (i + 2)) :: fyTrace r i)
      rw [ih]
      show fyAux _ (fyTrace r i) = fyAux (swapAt a ((fyTrace r i).length + 1) _) (fyTrace r i)
      rw [fyTrace_length]

/-- `fyAux` preserves length. -/
theorem fyAux_length {α : Type} (a : List α) (cs : List Nat) :
    (fyAux a cs).length = a.length := by
  induction cs generalizing a with
  | nil => rfl
  | cons j js ih => rw [fyAux, ih, swapAt_length]

/-- `fyAux` permutes its input. -/
theorem fyAux_perm {α : Type} (a : List α) (cs : List Nat) :
    List.Perm (fyAux a cs) a := by
  induction cs generalizing a with
  | nil => exact List.Perm.refl a
  | cons j js ih => exact List.Perm.trans (ih _) (swapAt_perm a (js.length + 1) j)

/-- A swap confined to the left part of an append acts on that part alone. -/
theorem swapAt_append_left {α : Type} (ys zs : List α) (i j : Nat)
    (hi : i < ys.length) (hj : j < ys.length) :
    swapAt (ys ++ zs) i j = swapAt ys i j ++ zs := by
  unfold swapAt
  rw [List.getElem?_append_left hi, List.getElem?_append_left hj,
    List.getElem?_eq_getElem hi, List.getElem?_eq_getElem hj]
  show ((ys ++ zs).set i ys[j]).set j ys[i] = (ys.set i ys[j]).set j ys[i] ++ zs
  rw [List.set_append_left _ _ hi, List.set_append_left _ _ (by simpa using hj)]

/-- Element `i` of `swapAt a i j` is the old element `j`. -/
theorem swapAt_getElem?_fst {α : Type} (a : List α) (i j : Nat)
    (hi : i < a.length) (hj : j < a.length) :
    (swapAt a i j)[i]? = some a[j] := by
  unfold swapAt
  rw [List.getElem?_eq_getElem hi, List.getElem?_eq_getElem hj]
  have hi2 : i < ((a.set i a[j]).set j a[i]).length := by simpa using hi
  rw [List.getElem?_eq_getElem hi2]
  by_cases h : i = j
  · subst h
    simp [set_getElem_eq_self a i hi]
  · simp [List.getElem_set, Ne.symm h]

/-- A valid run that never reaches the last position leaves it in place. -/
theorem fyAux_append_left {α : Type} (ys : List α) (z : α) (js : List Nat)
    (hv : ValidChoices js) (hlen : js.length < ys.length) :
    fyAux (ys ++ [z]) js = fyAux ys js ++ [z] := by
  induction hv generalizing ys with
  | nil => rfl
  | @cons j js hj hv ih =>
      have hi : js.length + 1 < ys.length := by simpa using hlen
      have hj' : j < ys.length := by omega
      rw [fyAux, swapAt_append_left ys [z] _ _ hi hj', ih _ (by rw [swapAt_length]; omega)]
      rfl

/-- Decomposition of a nonempty list around its last element, stated through
an indexed read. -/
theorem eq_dropLast_append {α : Type} (l : List α) (x : α) (hne : l ≠ [])
    (h : l[l.length - 1]? = some x) : l = l.dropLast ++ [x] := by
  have h1 := (List.dropLast_append_getLast hne).symm
  rw [List.getLast_eq_getElem] at h1
  have hlt : l.length - 1 < l.length := by
    have : l.length ≠ 0 := fun hz => hne (List.length_eq_zero.mp hz)
    omega
  rw [List.getElem?_eq_getElem hlt] at h
  rw [Option.some_inj.mp h] at h1
  exact h1

/-- Core counting fact behind the fairness of Fisher–Yates: on a
duplicate-free list, every permutation of the input is produced by exactly
one valid choice list of full length. -/
theorem fy_exists_unique {α : Type} :
    ∀ (n : Nat) (a b : List α), a.length = n → a.Nodup → List.Perm a b →
    ∃! cs : List Nat, cs.length = a.length - 1 ∧ ValidChoices cs ∧ fyAux a cs = b := by
  intro n
  induction n using Nat.strong_induction_on with
  | _ n ih =>
    intro a b hlen hnd hab
    match n, hlen with
    | 0, hlen =>
        have ha : a = [] := List.length_eq_zero.mp hlen
        subst ha
        have hb : b = [] := List.perm_nil.mp hab.symm
        subst hb
        refine ⟨[], ⟨by simp, ValidChoices.nil, rfl⟩, ?_⟩
        intro cs hcs
        exact List.length_eq_zero.mp (by simpa using hcs.1)
    | 1, hlen =>
        have hb : b = a := by
          rcases a with _ | ⟨x, t⟩
          · simp at hlen
          · have ht : t = [] := by simpa using hlen
            subst ht
            exact List.perm_singleton.mp hab.symm
        subst hb
        refine ⟨[], ⟨by simp [hlen], ValidChoices.nil, rfl⟩, ?_⟩
        intro cs hcs
        exact List.length_eq_zero.mp (by rw [hlen] at hcs; simpa using hcs.1)
    | m + 2, hlen =>
        have hm1 : m + 1 < a.length := by omega
        have hblen : b.length = m + 2 := hab.length_eq.symm.trans hlen
        have hbne : b ≠ [] := by
          intro h
          rw [h] at hblen
          simp at hblen
        have hbdec : b.dropLast ++ [b.getLast hbne] = b :=
          List.dropLast_append_getLast hbne
        have htmem : b.getLast hbne ∈ a := hab.mem_iff.mpr (List.getLast_mem hbne)
        obtain ⟨k, hk, hak⟩ := List.mem_iff_getElem.mp htmem
        have hk2 : k < m + 2 := hlen ▸ hk
        have haplen : (swapAt a (m + 1) k).length = m + 2 := by
          rw [swapAt_length, hlen]
        have hapne : swapAt a (m + 1) k ≠ [] := by
          intro h
          rw [h] at haplen
          simp at haplen
        have haplast : (swapAt a (m + 1) k)[m + 1]? = some (b.getLast hbne) := by
          rw [swapAt_getElem?_fst a (m + 1) k hm1 hk, hak]
        have hd : swapAt a (m + 1) k =
            (swapAt a (m + 1) k).dropLast ++ [b.getLast hbne] := by
          refine eq_dropLast_append _ _ hapne ?_
          rw [haplen]
          simpa using haplast
        have hdlen : (swapAt a (m + 1) k).dropLast.length = m + 1 := by
          rw [List.length_dropLast, haplen]
          omega
        have hdnd : (swapAt a (m + 1) k).dropLast.Nodup :=
          (List.dropLast_sublist _).nodup
            ((swapAt_perm a (m + 1) k).symm.nodup hnd)
        have hdb : List.Perm ((swapAt a (m + 1) k).dropLast) b.dropLast := by
          have h1 : List.Perm
              ((swapAt a (m + 1) k).dropLast ++ [b.getLast hbne])
              (b.dropLast ++ [b.getLast hbne]) := by
            rw [← hd, hbdec]
            exact (swapAt_perm a (m + 1) k).trans hab
          exact (List.perm_append_right_iff [b.getLast hbne]).mp h1
        obtain ⟨js, ⟨hjslen, hjsval, hjsfy⟩, hjsuniq⟩ :=
          ih (m + 1) (by omega) ((swapAt a (m + 1) k).dropLast) b.dropLast
            hdlen hdnd hdb
        have hjslen' : js.length = m := by
          rw [hdlen] at hjslen
          simpa using hjslen
        refine ⟨k :: js, ⟨by simp [hjslen', hlen], ?_, ?_⟩, ?_⟩
        · exact ValidChoices.cons (by omega) hjsval
        · show fyAux (swapAt a (js.length + 1) k) js = b
          rw [hjslen']
          conv_lhs => rw [hd]
          rw [fyAux_append_left _ _ _ hjsval (by omega), hjsfy, hbdec]
        · rintro cs ⟨hcl, hcv, hcf⟩
          rcases cs with _ | ⟨j₂, js₂⟩
          · rw [hlen] at hcl
            simp at hcl
          · rcases hcv with _ | ⟨hj₂, hv₂⟩
            have hl₂ : js₂.length = m := by
              rw [hlen] at hcl
              simpa using hcl
            have hj₂lt : j₂ < a.length := by
              rw [hlen]
              omega
            have ha₂len : (swapAt a (m + 1) j₂).length = m + 2 := by
              rw [swapAt_length, hlen]
            have ha₂ne : swapAt a (m + 1) j₂ ≠ [] := by
              intro h
              rw [h] at ha₂len
              simp at ha₂len
            have hj₂b : j₂ < a.length := hj₂lt
            have ha₂last : (swapAt a (m + 1) j₂)[m + 1]? = some (a[j₂]) :=
              swapAt_getElem?_fst a (m + 1) j₂ hm1 hj₂lt
            have hd₂ : swapAt a (m + 1) j₂ =
                (swapAt a (m + 1) j₂).dropLast ++ [a[j₂]] := by
              refine eq_dropLast_append _ _ ha₂ne ?_
              rw [ha₂len]
              simpa using ha₂last
            have hd₂len : (swapAt a (m + 1) j₂).dropLast.length = m + 1 := by
              rw [List.length_dropLast, ha₂len]
              omega
            have hcf' : fyAux ((swapAt a (m + 1) j₂).dropLast) js₂ ++ [a[j₂]] = b := by
              have e1 : fyAux (swapAt a (js₂.length + 1) j₂) js₂ = b := hcf
              rw [hl₂] at e1
              conv_lhs at e1 => rw [hd₂]
              rw [fyAux_append_left _ _ _ hv₂ (by omega)] at e1
              exact e1
            have hsplit := List.append_inj (hcf'.trans hbdec.symm)
              (by rw [fyAux_length, hd₂len, List.length_dropLast, hblen]; omega)
            have hj₂k : j₂ = k := by
              have e2 : a[j₂] = a[k] := by
                have e3 : a[j₂] = b.getLast hbne := by
                  have := hsplit.2
                  simpa using this
                rw [e3, hak]
              exact (hnd.getElem_inj_iff).mp e2
            subst hj₂k
            have hjseq : js₂ = js := by
              refine hjsuniq js₂ ⟨?_, hv₂, ?_⟩
              · rw [hdlen]
                simpa using hl₂
              · exact hsplit.1
            rw [hjseq]

/-! ### Properties of the draw loop -/

/-- When the loop guard fails, the loop returns immediately. -/
theorem drawGo_of_guard_false (fuel : Nat) (bag rack : List Tile)
    (h : ¬ (rack.length < 7 ∧ bag ≠ [])) : drawGo fuel bag rack = (bag, rack) := by
  cases fuel with
  | zero => rfl
  | succ f =>
      simp only [drawGo]
      rw [dif_neg h]

/-- The draw loop conserves the total number of tiles in bag and rack. -/
theorem drawGo_length_sum (fuel : Nat) (bag rack : List Tile) :
    (drawGo fuel bag rack).1.length + (drawGo fuel bag rack).2.length =
      bag.length + rack.length := by
  induction fuel generalizing bag rack with
  | zero => rfl
  | succ f ih =>
      by_cases hc : rack.length < 7 ∧ bag ≠ []
      · have hpos : bag.length ≠ 0 := fun hz => hc.2 (List.length_eq_zero.mp hz)
        simp only [drawGo]
        rw [dif_pos hc, ih]
        simp only [List.length_dropLast, List.length_append, List.length_cons,
          List.length_nil]
        omega
      · simp only [drawGo]
        rw [dif_neg hc]

/-- Size of the rack after the draw loop, when the rack is legal (≤ 7) and
the fuel covers the bag. -/
theorem drawGo_rack_length (fuel : Nat) (bag rack : List Tile)
    (hf : bag.length ≤ fuel) (h : rack.length ≤ 7) :
    (drawGo fuel bag rack).2.length = min 7 (rack.length + bag.length) := by
  induction fuel generalizing bag rack with
  | zero =>
      show rack.length = min 7 (rack.length + bag.length)
      omega
  | succ f ih =>
      by_cases hc : rack.length < 7 ∧ bag ≠ []
      · have hpos : bag.length ≠ 0 := fun hz => hc.2 (List.length_eq_zero.mp hz)
        simp only [drawGo]
        rw [dif_pos hc,
          ih _ _ (by simp only [List.length_dropLast]; omega)
            (by simp only [List.length_append, List.length_cons, List.length_nil]; omega)]
        simp only [List.length_dropLast, List.length_append, List.length_cons,
          List.length_nil]
        omega
      · simp only [drawGo]
        rw [dif_neg hc]
        show rack.length = min 7 (rack.length + bag.length)
        by_cases hb : bag = []
        · subst hb
          simp only [List.length_nil]
          omega
        · have : ¬ rack.length < 7 := fun hr => hc ⟨hr, hb⟩
          omega

/-- After the loop, the rack is full or the bag is exhausted. -/
theorem drawGo_post (fuel : Nat) (bag rack : List Tile) (hf : bag.length ≤ fuel) :
    7 ≤ (drawGo fuel bag rack).2.length ∨ (drawGo fuel bag rack).1 = [] := by
  induction fuel generalizing bag rack with
  | zero =>
      right
      show bag = []
      exact List.length_eq_zero.mp (by omega)
  | succ f ih =>
      by_cases hc : rack.length < 7 ∧ bag ≠ []
      · have hpos : bag.length ≠ 0 := fun hz => hc.2 (List.length_eq_zero.mp hz)
        simp only [drawGo]
        rw [dif_pos hc]
        exact ih _ _ (by simp only [List.length_dropLast]; omega)
      · simp only [drawGo]
        rw [dif_neg hc]
        by_cases hb : bag = []
        · exact Or.inr hb
        · left
          have : ¬ rack.length < 7 := fun hr => hc ⟨hr, hb⟩
          show 7 ≤ rack.length
          omega

/-- The loop only appends newly drawn tiles to the rack. -/
theorem drawGo_rack_extends (fuel : Nat) (bag rack : List Tile) :
    ∃ ds, (drawGo fuel bag rack).2 = rack ++ ds := by
  induction fuel generalizing bag rack with
  | zero => exact ⟨[], by show rack = rack ++ []; simp⟩
  | succ f ih =>
      by_cases hc : rack.length < 7 ∧ bag ≠ []
      · simp only [drawGo]
        rw [dif_pos hc]
        obtain ⟨ds, hds⟩ := ih bag.dropLast (rack ++ [bag.getLast hc.2])
        exact ⟨bag.getLast hc.2 :: ds, by rw [hds, List.append_assoc]; rfl⟩
      · simp only [drawGo]
        rw [dif_neg hc]
        exact ⟨[], by simp⟩

/-- Bag and rack together are only rearranged by the draw loop. -/
theorem drawGo_perm (fuel : Nat) (bag rack : List Tile) :
    List.Perm ((drawGo fuel bag rack).1 ++ (drawGo fuel bag rack).2) (bag ++ rack) := by
  induction fuel generalizing bag rack with
  | zero => exact List.Perm.refl _
  | succ f ih =>
      by_cases hc : rack.length < 7 ∧ bag ≠ []
      · simp only [drawGo]
        rw [dif_pos hc]
        refine (ih bag.dropLast (rack ++ [bag.getLast hc.2])).trans ?_
        have h1 : List.Perm (rack ++ [bag.getLast hc.2]) ([bag.getLast hc.2] ++ rack) :=
          List.perm_append_comm
        refine (h1.append_left bag.dropLast).trans ?_
        rw [← List.append_assoc, List.dropLast_append_getLast hc.2]
      · simp only [drawGo]
        rw [dif_neg hc]

/-- `drawTilesForPlayer` conserves the total of bag and rack sizes. -/
theorem drawTilesForPlayer_length_sum (bag rack : List Tile) :
    (drawTilesForPlayer bag rack).1.length + (drawTilesForPlayer bag rack).2.length =
      bag.length + rack.length :=
  drawGo_length_sum bag.length bag rack

/-- Rack size after `drawTilesForPlayer` on a legal rack. -/
theorem drawTilesForPlayer_rack_length (bag rack : List Tile) (h : rack.length ≤ 7) :
    (drawTilesForPlayer bag rack).2.length = min 7 (rack.length + bag.length) :=
  drawGo_rack_length bag.length bag rack (Nat.le_refl _) h

/-- After `drawTilesForPlayer`, the rack is full or the bag is empty. -/
theorem drawTilesForPlayer_post (bag rack : List Tile) :
    7 ≤ (drawTilesForPlayer bag rack).2.length ∨ (drawTilesForPlayer bag rack).1 = [] :=
  drawGo_post bag.length bag rack (Nat.le_refl _)

/-- `drawTilesForPlayer` only appends newly drawn tiles to the rack. -/
theorem drawTilesForPlayer_rack_extends (bag rack : List Tile) :
    ∃ ds, (drawTilesForPlayer bag rack).2 = rack ++ ds :=
  drawGo_rack_extends bag.length bag rack

/-- `drawTilesForPlayer` only rearranges bag and rack together. -/
theorem drawTilesForPlayer_perm (bag rack : List Tile) :
    List.Perm ((drawTilesForPlayer bag rack).1 ++ (drawTilesForPlayer bag rack).2)
      (bag ++ rack) :=
  drawGo_perm bag.length bag rack

/-- The draw loop is idempotent. -/
theorem drawTilesForPlayer_idem (bag rack : List Tile) :
    drawTilesForPlayer (drawTilesForPlayer bag rack).1 (drawTilesForPlayer bag rack).2 =
      drawTilesForPlayer bag rack := by
  have hguard : ¬ ((drawTilesForPlayer bag rack).2.length < 7 ∧
      (drawTilesForPlayer bag rack).1 ≠ []) := by
    rcases drawTilesForPlayer_post bag rack with h | h
    · intro hc
      omega
    · intro hc
      exact hc.2 h
  show drawGo (drawTilesForPlayer bag rack).1.length (drawTilesForPlayer bag rack).1
      (drawTilesForPlayer bag rack).2 = drawTilesForPlayer bag rack
  rw [drawGo_of_guard_false _ _ _ hguard]

/-! ### Game-level lemmas -/

/-- Every cell of a fresh board is empty. -/
theorem getCell_createBoard (i j : Nat) : getCell createBoard i j = none := by
  unfold getCell createBoard
  rcases Nat.lt_or_ge i 15 with hi | hi
  · rw [List.getElem?_replicate, if_pos hi]
    simp only [Option.getD_some]
    rcases Nat.lt_or_ge j 15 with hj | hj
    · rw [List.getElem?_replicate, if_pos hj]
      rfl
    · rw [List.getElem?_replicate, if_neg (by omega)]
      rfl
  · rw [List.getElem?_replicate, if_neg (by omega)]
    rfl

/-- A game whose board is fresh passes the `isFirstMove` scan. -/
theorem isFirstMove_of_createBoard (g : ScrabbleGame) (h : g.board = createBoard) :
    isFirstMove g = true := by
  unfold isFirstMove
  rw [List.all_eq_true]
  intro i _
  rw [List.all_eq_true]
  intro j _
  rw [h, getCell_createBoard]
  rfl

/-- If the whole-board scan finds no tile, the center is uncovered. -/
theorem coversCenter_eq_false_of_isFirstMove (g : ScrabbleGame)
    (h : isFirstMove g = true) : coversCenter g = false := by
  unfold isFirstMove at h
  rw [List.all_eq_true] at h
  have h7 := h 7 (by decide)
  rw [List.all_eq_true] at h7
  have h77 := h7 7 (by decide)
  unfold coversCenter
  rcases hc : getCell g.board 7 7 with _ | t
  · rfl
  · rw [hc] at h77
    simp at h77

/-- On a first move with an uncovered center, `submitWord` rejects and
returns the state unchanged. -/
theorem submitWord_rejects (g : ScrabbleGame) (k : Nat)
    (h1 : isFirstMove g = true) (h2 : coversCenter g = false) :
    submitWord k g = some (g, firstMoveRejection) := by
  unfold submitWord
  rw [h1, h2]
  rfl

/-- `submitWord` never writes the board, whatever branch it takes. -/
theorem submitWord_board (g g' : ScrabbleGame) (k : Nat) (res : MoveResult)
    (h : submitWord k g = some (g', res)) : g'.board = g.board := by
  unfold submitWord at h
  split at h
  · simp only [Option.some_inj, Prod.mk.injEq] at h
    rw [← h.1]
  · rcases hcp : getCurrentPlayer g with _ | p
    · rw [hcp] at h
      simp at h
    · rw [hcp] at h
      simp only [Option.some_inj, Prod.mk.injEq] at h
      rw [← h.1]
      rfl

/-- `submitWord` never writes the multiplier map. -/
theorem submitWord_multipliers (g g' : ScrabbleGame) (k : Nat) (res : MoveResult)
    (h : submitWord k g = some (g', res)) :
    g'.squareMultipliers = g.squareMultipliers := by
  unfold submitWord at h
  split at h
  · simp only [Option.some_inj, Prod.mk.injEq] at h
    rw [← h.1]
  · rcases hcp : getCurrentPlayer g with _ | p
    · rw [hcp] at h
      simp at h
    · rw [hcp] at h
      simp only [Option.some_inj, Prod.mk.injEq] at h
      rw [← h.1]
      rfl

/-- `exchangeTiles` never writes the board or the multiplier map. -/
theorem exchangeTiles_board (g g' : ScrabbleGame)
    (h : exchangeTiles g = some g') :
    g'.board = g.board ∧ g'.squareMultipliers = g.squareMultipliers := by
  unfold exchangeTiles at h
  rcases hcp : getCurrentPlayer g with _ | p
  · rw [hcp] at h
    simp at h
  · rw [hcp] at h
    simp only [Option.some_inj] at h
    rw [← h]
    exact ⟨rfl, rfl⟩

/-- Structural invariant of all reachable states: fresh board, the original
multiplier map, and a two-player roster with a valid turn index. -/
theorem reachable_inv (g : ScrabbleGame) (h : Reachable g) :
    g.board = createBoard ∧ g.squareMultipliers = createSquareMultipliers ∧
    g.players.length = 2 ∧ g.currentPlayerIndex < 2 := by
  induction h with
  | init r =>
      exact ⟨rfl, by simp only [initializeGame], by simp [initializeGame],
        by simp [initializeGame]⟩
  | pass hg ih =>
      refine ⟨ih.1, ih.2.1, ih.2.2.1, ?_⟩
      show (_ + 1) % _ < 2
      rw [ih.2.2.1]
      exact Nat.mod_lt _ (by omega)
  | exchange hg heq ih =>
      rename_i g₀ g₁
      obtain ⟨hb, hm⟩ := exchangeTiles_board g₀ g₁ heq
      refine ⟨hb.trans ih.1, hm.trans ih.2.1, ?_, ?_⟩
      · unfold exchangeTiles at heq
        rcases hcp : getCurrentPlayer g₀ with _ | p
        · rw [hcp] at heq
          simp at heq
        · rw [hcp] at heq
          simp only [Option.some_inj] at heq
          rw [← heq]
          show (g₀.players.set _ _).length = 2
          rw [List.length_set]
          exact ih.2.2.1
      · unfold exchangeTiles at heq
        rcases hcp : getCurrentPlayer g₀ with _ | p
        · rw [hcp] at heq
          simp at heq
        · rw [hcp] at heq
          simp only [Option.some_inj] at heq
          rw [← heq]
          show (_ + 1) % (g₀.players.set _ _).length < 2
          rw [List.length_set, ih.2.2.1]
          exact Nat.mod_lt _ (by omega)
  | submit k hg heq ih =>
      rename_i g₀ g₁ res
      refine ⟨(submitWord_board g₀ g₁ k res heq).trans ih.1,
        (submitWord_multipliers g₀ g₁ k res heq).trans ih.2.1, ?_, ?_⟩
      · unfold submitWord at heq
        split at heq
        · simp only [Option.some_inj, Prod.mk.injEq] at heq
          rw [← heq.1]
          exact ih.2.2.1
        · rcases hcp : getCurrentPlayer g₀ with _ | p
          · rw [hcp] at heq
            simp at heq
          · rw [hcp] at heq
            simp only [Option.some_inj, Prod.mk.injEq] at heq
            rw [← heq.1]
            show (g₀.players.set _ _).length = 2
            rw [List.length_set]
            exact ih.2.2.1
      · unfold submitWord at heq
        split at heq
        · simp only [Option.some_inj, Prod.mk.injEq] at heq
          rw [← heq.1]
          exact ih.2.2.2
        · rcases hcp : getCurrentPlayer g₀ with _ | p
          · rw [hcp] at heq
            simp at heq
          · rw [hcp] at heq
            simp only [Option.some_inj, Prod.mk.injEq] at heq
            rw [← heq.1]
            show (_ + 1) % (g₀.players.set _ _).length < 2
            rw [List.length_set, ih.2.2.1]
            exact Nat.mod_lt _ (by omega)

/-! ### Claim theorems -/

/-- C2: in every state reachable from `initializeGame` by the three engine
commands, all board cells are `null` — no engine operation ever writes a
tile into a board cell — so `isFirstMove` returns `true`, `coversCenter`
returns `false`, and every `submitWord` call returns the first-move
rejection `{valid:false, message}` with the state (scores, racks, bag, and
turn index included) completely unchanged. -/
theorem C2_board_always_empty (g : ScrabbleGame) (h : Reachable g) :
    (∀ i j, getCell g.board i j = none) ∧ isFirstMove g = true ∧
    coversCenter g = false ∧
    ∀ k, submitWord k g = some (g, firstMoveRejection) := by
  obtain ⟨hb, -, -, -⟩ := reachable_inv g h
  have h1 : isFirstMove g = true := isFirstMove_of_createBoard g hb
  have h2 : coversCenter g = false := coversCenter_eq_false_of_isFirstMove g h1
  exact ⟨fun i j => by rw [hb, getCell_createBoard], h1, h2,
    fun k => submitWord_rejects g k h1 h2⟩

/-- Witness for C2, at the initial state of the constant-zero stream. -/
theorem C2_board_always_empty_witness :
    getCell (initializeGame (fun _ => 0)).board 7 7 = none ∧
    isFirstMove (initializeGame (fun _ => 0)) = true ∧
    coversCenter (initializeGame (fun _ => 0)) = false ∧
    submitWord 0 (initializeGame (fun _ => 0)) =
      some (initializeGame (fun _ => 0), firstMoveRejection) := by
  obtain ⟨h1, h2, h3, h4⟩ :=
    C2_board_always_empty (initializeGame (fun _ => 0)) (Reachable.init (fun _ => 0))
  exact ⟨h1 7 7, h2, h3, h4 0⟩

/-- C6: whenever the board is empty (the `isFirstMove` scan finds no tile
— in this engine a submitted move covers the center only through the board,
so no move on an empty board covers it), `submitWord` rejects with
`{valid:false}` carrying a message, and returns the very same state: the
board stays empty and no score, rack, bag, or turn index changes. -/
theorem C6_empty_board_rejection (g : ScrabbleGame) (k : Nat)
    (h : isFirstMove g = true) :
    coversCenter g = false ∧
    submitWord k g = some (g, firstMoveRejection) ∧
    firstMoveRejection.valid = false ∧
    firstMoveRejection.message.isSome = true := by
  have h2 := coversCenter_eq_false_of_isFirstMove g h
  exact ⟨h2, submitWord_rejects g k h h2, rfl, rfl⟩

set_option maxRecDepth 4000 in
/-- Witness for C6 at a concrete fresh-board state. -/
theorem C6_empty_board_rejection_witness :
    coversCenter sampleState = false ∧
    submitWord 0 sampleState = some (sampleState, firstMoveRejection) ∧
    firstMoveRejection.valid = false ∧
    firstMoveRejection.message.isSome = true :=
  C6_empty_board_rejection sampleState 0 (by decide)

/-- C9: while the game is active (and the roster nonempty, as always in
play), `passTurn` sets the turn index to `(previous + 1) mod |players|` and
changes nothing else: players (scores and racks), board, bag, and
multiplier map are untouched. -/
theorem C9_passTurn_frame (g : ScrabbleGame) (h : g.gameOver = false)
    (hne : g.players ≠ []) :
    (passTurn g).currentPlayerIndex = (g.currentPlayerIndex + 1) % g.players.length ∧
    (passTurn g).players = g.players ∧
    (passTurn g).board = g.board ∧
    (passTurn g).tileBag = g.tileBag ∧
    (passTurn g).squareMultipliers = g.squareMultipliers ∧
    (passTurn g).gameOver = g.gameOver :=
  ⟨rfl, rfl, rfl, rfl, rfl, rfl⟩

/-- Witness for C9 at a concrete two-player state. -/
theorem C9_passTurn_frame_witness :
    (passTurn sampleState).currentPlayerIndex =
      (sampleState.currentPlayerIndex + 1) % sampleState.players.length ∧
    (passTurn sampleState).players = sampleState.players ∧
    (passTurn sampleState).board = sampleState.board ∧
    (passTurn sampleState).tileBag = sampleState.tileBag ∧
    (passTurn sampleState).squareMultipliers = sampleState.squareMultipliers ∧
    (passTurn sampleState).gameOver = sampleState.gameOver :=
  C9_passTurn_frame sampleState rfl (by simp [sampleState])

/-- C10: on any legal rack (≤ 7 tiles), the refill loop ends with exactly 7
rack tiles or an empty bag, moves tiles only from the bag to the end of the
rack (bag and rack together are merely rearranged), and running it again
immediately changes nothing. -/
theorem C10_refill_spec (bag rack : List Tile) (h : rack.length ≤ 7) :
    ((drawTilesForPlayer bag rack).2.length = 7 ∨ (drawTilesForPlayer bag rack).1 = []) ∧
    (drawTilesForPlayer bag rack).2.length = min 7 (rack.length + bag.length) ∧
    (∃ ds, (drawTilesForPlayer bag rack).2 = rack ++ ds) ∧
    List.Perm ((drawTilesForPlayer bag rack).1 ++ (drawTilesForPlayer bag rack).2)
      (bag ++ rack) ∧
    drawTilesForPlayer (drawTilesForPlayer bag rack).1 (drawTilesForPlayer bag rack).2 =
      drawTilesForPlayer bag rack := by
  refine ⟨?_, drawTilesForPlayer_rack_length bag rack h,
    drawTilesForPlayer_rack_extends bag rack, drawTilesForPlayer_perm bag rack,
    drawTilesForPlayer_idem bag rack⟩
  rcases drawTilesForPlayer_post bag rack with hp | hp
  · left
    have hmin := drawTilesForPlayer_rack_length bag rack h
    omega
  · right
    exact hp

/-- Witness for C10: idempotence at a one-tile bag and an empty rack. -/
theorem C10_refill_spec_witness :
    drawTilesForPlayer (drawTilesForPlayer [sampleTile] []).1
        (drawTilesForPlayer [sampleTile] []).2 =
      drawTilesForPlayer [sampleTile] [] :=
  (C10_refill_spec [sampleTile] [] (by decide)).2.2.2.2

set_option maxRecDepth 4000 in
/-- C7: whatever the shuffle's random choices, the created bag is a
permutation of the fixed distribution: exactly 100 tiles, the canonical
count for every letter row (9 'A', 12 'E', 1 'Q', 1 'Z', 2 blanks, …),
every blank carrying `points = 0` and `isBlank = true`, and every tile's
points equal to its letter's entry in the letter-value table. -/
theorem C7_tile_bag_distribution (r : Nat → Nat) :
    List.Perm (createTileBag r) baseTileBag ∧
    (createTileBag r).length = 100 ∧
    (∀ e ∈ tileDistribution,
      ((createTileBag r).filter (fun t => t.letter == e.1)).length = e.2.1) ∧
    ∀ t ∈ createTileBag r,
      letterValue t.letter = some t.points ∧
      (t.isBlank = true ↔ t.letter = blankChar) ∧
      (t.isBlank = true → t.points = 0) := by
  have hp : List.Perm (createTileBag r) baseTileBag := shuffleArray_perm r baseTileBag
  have hbase : ∀ e ∈ tileDistribution,
      (baseTileBag.filter (fun t => t.letter == e.1)).length = e.2.1 := by decide
  have hall : ∀ t ∈ baseTileBag,
      letterValue t.letter = some t.points ∧
      (t.isBlank = true ↔ t.letter = blankChar) ∧
      (t.isBlank = true → t.points = 0) := by decide
  refine ⟨hp, ?_, ?_, ?_⟩
  · rw [hp.length_eq]
    decide
  · intro e he
    rw [← List.countP_eq_length_filter, hp.countP_eq, List.countP_eq_length_filter]
    exact hbase e he
  · intro t ht
    exact hall t (hp.mem_iff.mp ht)

/-- Witness for C7 with the constant-zero stream: twelve 'E' tiles and one
hundred tiles in total. -/
theorem C7_tile_bag_distribution_witness :
    ((createTileBag (fun _ => 0)).filter (fun t => t.letter == 'E')).length = 12 ∧
    (createTileBag (fun _ => 0)).length = 100 := by
  obtain ⟨-, hlen, hcounts, -⟩ := C7_tile_bag_distribution (fun _ => 0)
  exact ⟨hcounts ('E', 12, 1) (by decide), hlen⟩

/-- Streams agreeing on the sampled positions produce the same trace. -/
theorem fyTrace_congr (r r' : Nat → Nat) (n : Nat)
    (h : ∀ i, 1 ≤ i → i ≤ n → r i = r' i) : fyTrace r n = fyTrace r' n := by
  induction n with
  | zero => rfl
  | succ i ih =>
      show (r (i + 1) % (i + 2)) :: fyTrace r i = (r' (i + 1) % (i + 2)) :: fyTrace r' i
      rw [h (i + 1) (by omega) (by omega), ih (fun m h1 h2 => h m h1 (by omega))]

/-- Every valid choice list is the trace of some random stream. -/
theorem fyTrace_realizable (cs : List Nat) (hv : ValidChoices cs) :
    ∃ r : Nat → Nat, fyTrace r cs.length = cs := by
  induction hv with
  | nil => exact ⟨fun _ => 0, rfl⟩
  | @cons j js hj hv ih =>
      obtain ⟨r, hr⟩ := ih
      refine ⟨fun i => if i = js.length + 1 then j else r i, ?_⟩
      show (_ % (js.length + 2)) :: fyTrace _ js.length = j :: js
      have h1 : (if js.length + 1 = js.length + 1 then j else r (js.length + 1)) %
          (js.length + 2) = j := by
        rw [if_pos rfl]
        exact Nat.mod_eq_of_lt (by omega)
      have h2 : fyTrace (fun i => if i = js.length + 1 then j else r i) js.length = js := by
        rw [fyTrace_congr _ r _ (fun m h1 h2 => by rw [if_neg (by omega)]), hr]
      rw [h1, h2]

/-- C8: `shuffleArray` performs exactly the Fisher–Yates algorithm — its
run on any stream equals `fyAux` applied to the sampled trace, a valid
choice list of full length `n − 1` whose entry for loop counter `i` lies in
`[0, i]`, and conversely every valid choice list is the trace of some
stream — and, on a duplicate-free list, every permutation of the input is
produced by exactly one valid choice list.  With an unbiased source all
choice lists are equally likely, so every permutation is produced with
equal probability. -/
theorem C8_shuffle_uniform {α : Type} (a b : List α) (hnd : a.Nodup)
    (hab : List.Perm a b) :
    (∀ r : Nat → Nat,
      shuffleArray r a = fyAux a (fyTrace r (a.length - 1)) ∧
      ValidChoices (fyTrace r (a.length - 1)) ∧
      (fyTrace r (a.length - 1)).length = a.length - 1) ∧
    (∃! cs : List Nat, cs.length = a.length - 1 ∧ ValidChoices cs ∧ fyAux a cs = b) ∧
    (∀ cs : List Nat, ValidChoices cs → ∃ r : Nat → Nat, fyTrace r cs.length = cs) :=
  ⟨fun r => ⟨shuffleGo_eq_fyAux r (a.length - 1) a, fyTrace_valid r _, fyTrace_length r _⟩,
    fy_exists_unique a.length a b rfl hnd hab,
    fun cs hv => fyTrace_realizable cs hv⟩

/-- Witness for C8: on `[0, 1, 2]` the permutation `[2, 0, 1]` is reached
by exactly one valid choice list. -/
theorem C8_shuffle_uniform_witness :
    ∃! cs : List Nat, cs.length = [0, 1, 2].length - 1 ∧ ValidChoices cs ∧
      fyAux [0, 1, 2] cs = [2, 0, 1] :=
  (C8_shuffle_uniform [0, 1, 2] [2, 0, 1] (by decide) (by decide)).2.1

set_option maxRecDepth 8000 in
/-- Counterexample to C5 as stated: in the map built at game start the
center cell `(7,7)` has no multiplier entry at all — in particular it is
not a double-word square. -/
theorem C5_center_not_double_word :
    lookupKey createSquareMultipliers (7, 7) = none ∧
    (lookupKey createSquareMultipliers (7, 7)).map Multiplier.kind ≠
      some MultKind.doubleWord :=
  ⟨by decide, by decide⟩

set_option maxRecDepth 8000 in
/-- C5 (amended): the multiplier map of every reachable state is exactly
the map built at game start — so no multiplier's kind ever changes — with
exactly 8 triple-word, 16 double-word, 12 triple-letter and 24
double-letter entries, at the fixed rule-defined coordinate lists, all
distinct and unconsumed; the center cell `(7,7)` carries no multiplier (in
particular it is not a double-word square). -/
theorem C5_multiplier_map (g : ScrabbleGame) (h : Reachable g) :
    g.squareMultipliers = createSquareMultipliers ∧
    (g.squareMultipliers.filter (fun e => e.2.kind == MultKind.tripleWord)).length = 8 ∧
    (g.squareMultipliers.filter (fun e => e.2.kind == MultKind.doubleWord)).length = 16 ∧
    (g.squareMultipliers.filter (fun e => e.2.kind == MultKind.tripleLetter)).length = 12 ∧
    (g.squareMultipliers.filter (fun e => e.2.kind == MultKind.doubleLetter)).length = 24 ∧
    (g.squareMultipliers.map Prod.fst).Nodup ∧
    (∀ p ∈ tripleWordSquares,
      (lookupKey g.squareMultipliers p).map Multiplier.kind = some MultKind.tripleWord) ∧
    (∀ p ∈ doubleWordSquares,
      (lookupKey g.squareMultipliers p).map Multiplier.kind = some MultKind.doubleWord) ∧
    (∀ p ∈ tripleLetterSquares,
      (lookupKey g.squareMultipliers p).map Multiplier.kind = some MultKind.tripleLetter) ∧
    (∀ p ∈ doubleLetterSquares,
      (lookupKey g.squareMultipliers p).map Multiplier.kind = some MultKind.doubleLetter) ∧
    (∀ e ∈ g.squareMultipliers, e.2.applied = false) ∧
    lookupKey g.squareMultipliers (7, 7) = none := by
  obtain ⟨-, hm, -, -⟩ := reachable_inv g h
  rw [hm]
  exact ⟨rfl, by decide⟩

/-- Witness for C5 (amended) at the initial state of the constant-zero
stream. -/
theorem C5_multiplier_map_witness :
    (initializeGame (fun _ => 0)).squareMultipliers = createSquareMultipliers ∧
    ((initializeGame (fun _ => 0)).squareMultipliers.filter
      (fun e => e.2.kind == MultKind.doubleWord)).length = 16 ∧
    lookupKey (initializeGame (fun _ => 0)).squareMultipliers (7, 7) = none := by
  obtain ⟨h1, -, h3, -, -, -, -, -, -, -, -, h12⟩ :=
    C5_multiplier_map _ (Reachable.init (fun _ => 0))
  exact ⟨h1, h3, h12⟩

set_option maxRecDepth 8000 in
/-- Counterexample evidence for C3: in a state whose board carries a center
tile (so the first-move check passes and the move is accepted),
`submitWord` returns `{valid:true, score:10}` and advances the turn — but
it writes no tile of any placement to the board (the board is exactly the
one it started with), removes nothing from the acting player's rack, and
adds the stub score 10 (not a score of the move) to the player. -/
theorem C3_accepted_move_changes_nothing_on_board :
    isFirstMove c3State = false ∧
    (submitWord 0 c3State).map (fun pr => pr.2) =
      some ⟨true, some 10, none⟩ ∧
    (submitWord 0 c3State).map (fun pr => pr.1.board) = some c3State.board ∧
    (submitWord 0 c3State).map (fun pr => pr.1.players.map Player.rack) =
      some (c3State.players.map Player.rack) ∧
    (submitWord 0 c3State).map (fun pr => pr.1.players.map Player.score) =
      some [10, 0] ∧
    (submitWord 0 c3State).map (fun pr => pr.1.currentPlayerIndex) = some 1 := by
  refine ⟨by decide, by decide, by decide, by decide, by decide, by decide⟩

set_option maxRecDepth 8000 in
/-- Counterexample evidence for C4: with an empty bag (fewer than 7 tiles)
and a full rack, `exchangeTiles` completes without error but destroys the
acting player's seven tiles: `|bag| + |rack|` drops from 7 to 0. -/
theorem C4_exchange_not_conserving :
    sampleState.tileBag.length < 7 ∧
    (sampleState.players[(0 : Nat)]?).map
      (fun p => sampleState.tileBag.length + p.rack.length) = some 7 ∧
    (exchangeTiles sampleState).map
      (fun g' => (g'.players[(0 : Nat)]?).map
        (fun p => g'.tileBag.length + p.rack.length)) = some (some 0) := by
  refine ⟨by decide, by decide, by decide⟩

/-- `passTurn` does not change the tile total. -/
theorem totalTiles_passTurn (g : ScrabbleGame) :
    totalTiles (passTurn g) = totalTiles g := rfl

/-- Counterexample evidence for C1: for every random stream, the freshly
initialized game satisfies the conservation total of 100, but a single
`exchangeTiles` command — which discards the acting player's whole rack and
merely redraws — drops the total to 93: seven tiles vanish from the game. -/
theorem C1_exchange_violates_conservation (r : Nat → Nat) :
    totalTiles (initializeGame r) = 100 ∧
    (exchangeTiles (initializeGame r)).map totalTiles = some 93 := by
  have hbag : (createTileBag r).length = 100 := by
    show (shuffleArray r baseTileBag).length = 100
    rw [(shuffleArray_perm r baseTileBag).length_eq]
    decide
  have h0r : (drawTilesForPlayer (createTileBag r) []).2.length = 7 := by
    have h := drawTilesForPlayer_rack_length (createTileBag r) [] (by simp)
    simp only [List.length_nil] at h
    omega
  have h0b : (drawTilesForPlayer (createTileBag r) []).1.length = 93 := by
    have h := drawTilesForPlayer_length_sum (createTileBag r) []
    simp only [List.length_nil] at h
    omega
  have h1r : (drawTilesForPlayer (drawTilesForPlayer (createTileBag r) []).1 []).2.length
      = 7 := by
    have h := drawTilesForPlayer_rack_length
      (drawTilesForPlayer (createTileBag r) []).1 [] (by simp)
    simp only [List.length_nil] at h
    omega
  have h1b : (drawTilesForPlayer (drawTilesForPlayer (createTileBag r) []).1 []).1.length
      = 86 := by
    have h := drawTilesForPlayer_length_sum (drawTilesForPlayer (createTileBag r) []).1 []
    simp only [List.length_nil] at h
    omega
  have h2r : (drawTilesForPlayer
      (drawTilesForPlayer (drawTilesForPlayer (createTileBag r) []).1 []).1 []).2.length
      = 7 := by
    have h := drawTilesForPlayer_rack_length
      (drawTilesForPlayer (drawTilesForPlayer (createTileBag r) []).1 []).1 [] (by simp)
    simp only [List.length_nil] at h
    omega
  have h2b : (drawTilesForPlayer
      (drawTilesForPlayer (drawTilesForPlayer (createTileBag r) []).1 []).1 []).1.length
      = 79 := by
    have h := drawTilesForPlayer_length_sum
      (drawTilesForPlayer (drawTilesForPlayer (createTileBag r) []).1 []).1 []
    simp only [List.length_nil] at h
    omega
  have hboard : boardTileCount createBoard = 0 := by decide
  constructor
  · simp only [totalTiles, initializeGame]
    simp only [List.map_cons, List.map_nil, List.sum_cons, List.sum_nil]
    rw [hboard, h1b, h0r, h1r]
    norm_num
  · have hcp : getCurrentPlayer (initializeGame r) =
        some ⟨0, "Player 1", 0, (drawTilesForPlayer (createTileBag r) []).2⟩ := by
      simp only [getCurrentPlayer, initializeGame]
      rfl
    unfold exchangeTiles
    rw [hcp]
    simp only [Option.map_some']
    rw [totalTiles_passTurn]
    simp only [totalTiles, initializeGame]
    simp only [List.set_cons_zero, List.map_cons, List.map_nil, List.sum_cons,
      List.sum_nil]
    rw [hboard, h2b, h2r, h1r]
    norm_num

end Scrabble
